import Mathlib

set_option autoImplicit false

namespace BetterMetrics

/-! # Label codecs from `src/examples/axum-server/src/metrics.rs`

The `StatusCode` wrapper implements `FixedCardinalityLabel` by hand
(lines 146-158).  Status codes are modelled by their numeric value as a `Nat`;
`StatusCode::from_u16` (from the `http` crate) accepts exactly the range
`[100, 1000)` and is modelled as an `Option`-returning function, as is
`u16::try_from` (which accepts `[0, 65536)`). -/

/-- `StatusCode::cardinality`, from the source: `(100..1000).len()`. -/
def statusCode_cardinality : Nat := 1000 - 100

/-- `StatusCode::encode`, from the source: `self.0.as_u16() as usize - 100`
(`Nat` subtraction matches `usize` subtraction here because status codes are
at least 100; for smaller inputs the Rust code would panic in debug mode,
which is outside the declared value set). -/
def statusCode_encode (s : Nat) : Nat := s - 100

/-- `u16::try_from(value)`: succeeds exactly when the value fits in 16 bits. -/
def u16_try_from (n : Nat) : Option Nat :=
  if n ≤ 65535 then some n else none

/-- `http::StatusCode::from_u16`: succeeds exactly for codes in `[100, 1000)`. -/
def httpStatus_from_u16 (n : Nat) : Option Nat :=
  if 100 ≤ n ∧ n < 1000 then some n else none

/-- `StatusCode::decode`, from the source:
`StatusCode::from_u16(u16::try_from(value).unwrap() + 100).unwrap()`.
`none` models a panic of either `unwrap`. -/
def statusCode_decode (c : Nat) : Option Nat :=
  (u16_try_from c).bind (fun v => httpStatus_from_u16 (v + 100))

/-- The `Method` label enum from `metrics.rs` (lines 118-124): a closed
enumeration with variants `Get`, `Post`, `Other`. -/
inductive Method where
  | get
  | post
  | other
deriving DecidableEq

/-- Modelled from the spec: the `#[derive(FixedCardinalityLabel)]` expansion is
not in the repository; per §9, the derive generates a bijection between the
variants and `[0, cardinality)` in declaration order, with `cardinality()` a
compile-time constant equal to the number of variants. -/
def Method.encode : Method → Nat
  | .get => 0
  | .post => 1
  | .other => 2

/-- Modelled from the spec: inverse of the derive-generated `encode`;
a code outside `[0, 3)` is a programming error (spec §4.1), modelled as `none`. -/
def Method.decode : Nat → Option Method
  | 0 => some .get
  | 1 => some .post
  | 2 => some .other
  | _ => none

/-- Modelled from the spec: derive-generated `cardinality()` is the number of
enumerated variants of `Method`. -/
def Method.cardinality : Nat := 3

/-- `impl From<axum::http::Method> for Method` (metrics.rs lines 126-136).
An HTTP method is modelled by its name string; the impl compares against the
`GET` and `POST` constants and maps everything else to `Other`. -/
def method_from (m : String) : Method :=
  if m = "GET" then Method.get
  else if m = "POST" then Method.post
  else Method.other

/-! # The benchmark's label space (`src/core/benches/counters.rs`) -/

/-- The `ErrorKind` label enum from `counters.rs` (variants `User`, `Internal`,
`Network`). -/
inductive ErrorKind where
  | user
  | internal
  | network
deriving DecidableEq

/-- Modelled from the spec: derive-generated `encode` for `ErrorKind`,
declaration-order bijection onto `[0, 3)`. -/
def ErrorKind.encode : ErrorKind → Nat
  | .user => 0
  | .internal => 1
  | .network => 2

/-- Modelled from the spec: derive-generated label value names for `ErrorKind`
under `rename_all = "kebab-case"` (matching `ErrorKind::to_str` in the source). -/
def ErrorKind.name : ErrorKind → String
  | .user => "user"
  | .internal => "internal"
  | .network => "network"

/-- The `errors()` slice from `counters.rs`. -/
def errorsList : List ErrorKind := [.user, .internal, .network]

/-- The `routes()` slice from `counters.rs`: six fixed route strings interned
into a `RodeoReader`, so route handles are `[0, 6)` in this order. -/
def routesList : List String :=
  ["/api/v1/users",
   "/api/v1/users/:id",
   "/api/v1/products",
   "/api/v1/products/:id",
   "/api/v1/products/:id/owner",
   "/api/v1/products/:id/purchase"]

/-- Modelled from the spec: §3 — the composite index of a label group is the
mixed-radix encoding `index = Σ value_i_encoded × Π cardinality_j for j < i`.
For the benchmark's `Error { kind, route }` group, `kind` has cardinality 3 and
`route` (a fixed interned dimension) contributes its handle in the next radix
position. -/
def errorIndex (kind : ErrorKind) (route : Nat) : Nat :=
  kind.encode + 3 * route

/-! # Metric storage, modelled from the spec

The `measured` crate itself (`CounterVec`, `HistogramVec`, `TextEncoder`) is
not among the repository's source files — only its benchmarks and an example
consume it — so storage and encoding are modelled from the specification
(§3, §4.3-§4.5). -/

/-- Modelled from the spec: §4.3 — `CounterVec::new` creates dense storage
sized to the total cardinality, zero-filled. -/
def denseNew (card : Nat) : List Nat := List.replicate card 0

/-- Modelled from the spec: §4.3 — `inc` locates the accumulator at the
composite index and increments it by 1; the atomic fetch-add is modelled by
its linearized effect. -/
def denseInc (st : List Nat) (i : Nat) : List Nat :=
  st.set i (st.getD i 0 + 1)

/-- Read a dense accumulator. -/
def denseGet (st : List Nat) (i : Nat) : Nat := st.getD i 0

/-- Modelled from the spec: §4.3 — `CounterVec::new_sparse` creates empty
sparse storage; entries are created lazily and never removed (§3). The sparse
map is modelled as an insertion-ordered association list, giving the stable
iteration order §4.5 requires. -/
def sparseNew : List (Nat × Nat) := []

/-- Modelled from the spec: §4.3 — sparse `inc` lazily creates-then-locates
the accumulator for the composite index and increments it by 1. -/
def sparseInc : List (Nat × Nat) → Nat → List (Nat × Nat)
  | [], i => [(i, 1)]
  | (k, v) :: rest, i =>
    if k = i then (k, v + 1) :: rest else (k, v) :: sparseInc rest i

/-- Look up a sparse accumulator; `none` means the entry was never created. -/
def sparseGet : List (Nat × Nat) → Nat → Option Nat
  | [], _ => none
  | (k, v) :: rest, i => if k = i then some v else sparseGet rest i

/-- A sparse accumulator's value, where an absent entry reads as 0. -/
def sparseGetD (st : List (Nat × Nat)) (i : Nat) : Nat :=
  (sparseGet st i).getD 0

/-! # Histograms, modelled from the spec (§4.4) -/

/-- Modelled from the spec: §4.4 — a histogram accumulator is a fixed-size
array of bucket counts plus a running sum and a total observation count (§3).
The floating-point sum is modelled over `ℚ`. -/
structure Hist where
  buckets : List Nat
  sum : ℚ
  count : Nat
deriving DecidableEq

/-- A fresh histogram accumulator: all bucket counts, the sum and the count
are zero. -/
def histNew (n : Nat) : Hist := ⟨List.replicate n 0, 0, 0⟩

/-- Modelled from the spec: §4.4 — an observation increments every bucket
whose threshold is ≥ the observed value; thresholds and bucket counts are
walked in parallel ascending order. -/
def bumpBuckets (x : ℚ) : List ℚ → List Nat → List Nat
  | t :: ts, b :: bs => (if x ≤ t then b + 1 else b) :: bumpBuckets x ts bs
  | _, _ => []

/-- Modelled from the spec: §4.4 — `observe(value)` increments every bucket
whose threshold is ≥ value, increments the total observation count, and adds
`value` to the running sum. -/
def observe (th : List ℚ) (h : Hist) (x : ℚ) : Hist :=
  { buckets := bumpBuckets x th h.buckets
    sum := h.sum + x
    count := h.count + 1 }

/-- Modelled from the spec: §4.4 — `Thresholds::exponential_buckets(start,
factor)` with `n` buckets produces thresholds exponentially spaced from the
base: `start * factor^i` for `i` in `[0, n)`. -/
def exponential_buckets (start factor : ℚ) (n : Nat) : List ℚ :=
  (List.range n).map (fun i => start * factor ^ i)

/-- The thresholds used by the axum example (`AppMetrics::new`):
`Thresholds::<6>::exponential_buckets(0.1, 2.0)`. -/
def th6 : List ℚ := exponential_buckets (1 / 10) 2 6

/-! # Text encoding, modelled from the spec (§4.5) -/

/-- Modelled from the spec: §4.1/§4.5 — a route handle decodes back to its
interned string for export. -/
def routeNameAt (h : Nat) : String := routesList.getD h ""

/-- Modelled from the spec: §4.5 — the derive-generated kind label value for
an encoded kind index. -/
def kindNameAt (k : Nat) : String := (errorsList.map ErrorKind.name).getD k ""

/-- Modelled from the spec: §4.5/§6 — one exposition line per populated label
combination: metric name, labels rendered as name="value" pairs in a stable
order, then the current count. -/
def renderLine (name : String) (i v : Nat) : String :=
  name ++ "\x7bkind=\"" ++ kindNameAt (i % 3) ++ "\",route=\"" ++
    routeNameAt (i / 3) ++ "\"\x7d " ++ toString v ++ "\n"

/-- Modelled from the spec: §4.5 — a dense counter emits one line per slot,
walking composite indices in array order. -/
def renderDense (name : String) (st : List Nat) : String :=
  String.join ((List.range st.length).map (fun i => renderLine name i (denseGet st i)))

/-- Modelled from the spec: §4.5 — a sparse counter emits one line per
populated entry, walking the map in its (stable, insertion) order. -/
def renderSparse (name : String) (st : List (Nat × Nat)) : String :=
  String.join (st.map (fun p => renderLine name p.1 p.2))

/-- Modelled from the spec: §4.5 — a histogram bucket line carries a
`le="threshold"` label and the cumulative bucket count. -/
def renderHistLine (name : String) (t : ℚ) (v : Nat) : String :=
  name ++ "_bucket\x7ble=\"" ++ toString t ++ "\"\x7d " ++ toString v ++ "\n"

/-- Modelled from the spec: §4.5 — a histogram emits one `_bucket` line per
threshold, then a `_sum` line and a `_count` line. -/
def renderHist (name : String) (th : List ℚ) (h : Hist) : String :=
  String.join ((th.zip h.buckets).map (fun p => renderHistLine name p.1 p.2)) ++
    name ++ "_sum " ++ toString h.sum ++ "\n" ++
    name ++ "_count " ++ toString h.count ++ "\n"

/-! # The engine as a state machine

One engine state holds a dense counter metric, a sparse counter metric and a
histogram metric (with its construction-time thresholds), plus the text
encoder's reusable buffer and the list of texts `finish` has returned. A trace
of operations models any interleaving of the concurrent calls the spec's §5
scheduling model allows: atomic updates are linearized into a sequence. -/

structure Engine where
  counters : List Nat
  scounters : List (Nat × Nat)
  hist : Hist
  thresholds : List ℚ
  buf : String
  outs : List String

/-- A fresh engine: dense counters zero-filled at full cardinality, sparse map
empty, histogram zeroed, encoder buffer empty. -/
def engineNew (card : Nat) (th : List ℚ) : Engine :=
  { counters := denseNew card
    scounters := sparseNew
    hist := histNew th.length
    thresholds := th
    buf := ""
    outs := [] }

/-- The operations the claims quantify over: increments on either counter
backing, histogram observations, `collect_into` for each metric, and
`finish`. -/
inductive Op where
  | incDense (i : Nat)
  | incSparse (i : Nat)
  | obs (x : ℚ)
  | collectDense (name : String)
  | collectSparse (name : String)
  | collectHist (name : String)
  | finishOp

/-- Modelled from the spec: §4.3-§4.5 — the effect of one operation.
`collect_into` appends the metric's exposition text to the encoder's buffer;
`finish` returns the accumulated text (appended to `outs`) and resets the
buffer for reuse. -/
def applyOp (s : Engine) : Op → Engine
  | .incDense i => { s with counters := denseInc s.counters i }
  | .incSparse i => { s with scounters := sparseInc s.scounters i }
  | .obs x => { s with hist := observe s.thresholds s.hist x }
  | .collectDense name => { s with buf := s.buf ++ renderDense name s.counters }
  | .collectSparse name => { s with buf := s.buf ++ renderSparse name s.scounters }
  | .collectHist name => { s with buf := s.buf ++ renderHist name s.thresholds s.hist }
  | .finishOp => { s with buf := "", outs := s.outs ++ [s.buf] }

/-- Run a trace of operations (one linearization of the concurrent calls). -/
def runOps (s : Engine) : List Op → Engine
  | [] => s
  | op :: ops => runOps (applyOp s op) ops

/-- How many operations of a trace increment the dense accumulator `v`. -/
def incCountD (ops : List Op) (v : Nat) : Nat :=
  (ops.filter (fun op => match op with | .incDense i => i == v | _ => false)).length

/-- How many operations of a trace increment the sparse accumulator `v`. -/
def incCountS (ops : List Op) (v : Nat) : Nat :=
  (ops.filter (fun op => match op with | .incSparse i => i == v | _ => false)).length

/-! # The axum example's middleware and scrape handler
(`src/examples/axum-server/src/metrics.rs`, lines 45-94)

The middleware is straight-line code; it is embedded as a producer of the
trace of metric calls it makes around the downstream handler. -/

/-- An incoming request, reduced to what the middleware reads from it: the
matched route path and the HTTP method name. -/
structure HttpRequest where
  matchedPath : String
  method : String

/-- An HTTP response: status, body, and headers as name/value pairs.
`http::Response::new(body)` produces a response with status 200 and an empty
header map. -/
structure HttpResponse where
  status : Nat
  body : String
  headers : List (String × String)

/-- `Response::new(body)` from the `http` crate: default parts, so no headers. -/
def http_response_new (body : String) : HttpResponse :=
  { status := 200, body := body, headers := [] }

/-- The metric calls the middleware makes, in order, plus the point at which
the downstream handler runs. -/
inductive MetricEvent where
  | requestsInc (path : String) (method : Method)
  | handlerRun
  | durationObserve (path : String) (method : Method) (elapsed : ℚ)
  | responsesInc (path : String) (method : Method) (status : Nat)
deriving DecidableEq

/-- Whether an event is the downstream handler running (used to split a trace
into the parts before and after the handler). -/
def isHandlerRun : MetricEvent → Bool
  | .handlerRun => true
  | _ => false

/-- The `middleware` function (metrics.rs lines 45-76): extracts the matched
path and converts the request method via the `From` impl, calls
`http_requests.inc` with those labels, runs the downstream handler, then calls
`http_request_duration.observe` with the elapsed duration and
`http_responses.inc` with the response status, and returns the downstream
response unchanged. `elapsed` stands for the measured wall-clock duration. -/
def middleware (req : HttpRequest) (downstream : HttpResponse) (elapsed : ℚ) :
    List MetricEvent × HttpResponse :=
  ([MetricEvent.requestsInc req.matchedPath (method_from req.method),
    MetricEvent.handlerRun,
    MetricEvent.durationObserve req.matchedPath (method_from req.method) elapsed,
    MetricEvent.responsesInc req.matchedPath (method_from req.method) downstream.status],
   downstream)

/-- The scrape `handler` (metrics.rs lines 78-94): collects the three metrics
into the locked encoder, then builds the response as
`Response::new(encoder.finish().into())` — the body is the finished text and
the response carries `Response::new`'s default (empty) headers. -/
def handler (s : Engine) : Engine × HttpResponse :=
  let s3 := runOps s
    [Op.collectSparse "http_requests_total",
     Op.collectSparse "http_responses_total",
     Op.collectHist "http_request_duration_seconds"]
  (applyOp s3 Op.finishOp, http_response_new s3.buf)

/-! # The high-cardinality benchmark's name supply
(`src/core/benches/counters.rs`, mod `high_cardinality`) -/

/-- `high_cardinality::LOOPS`. -/
def LOOPS : Nat := 1000

/-- `high_cardinality::get_names`: generates `LOOPS * errors().len() *
routes().len()` fake names (`repeat_with(..).take(LOOPS * extra).collect()`).
`gen` models the seeded random generator producing the i-th name. -/
def get_names (generate : Nat → String) : List String :=
  (List.range (LOOPS * (errorsList.length * routesList.length))).map generate

/-- `names.next().unwrap()` on a `std` slice iterator: `some` of the rest of
the list when an element remains, `none` models the `unwrap` panic. -/
def iterNext : Option (List String) → Option (List String)
  | some (_ :: rest) => some rest
  | _ => none

/-- The triple loop of `high_cardinality::measured`'s benchmark body: for each
of `LOOPS` rounds, for each error kind, for each route, consume one name via
`names.next().unwrap()`. The result is `none` iff some `unwrap` panicked. -/
def benchLoop (names : List String) : Option (List String) :=
  (List.range LOOPS).foldl
    (fun acc _ =>
      errorsList.foldl
        (fun acc2 _ => routesList.foldl (fun acc3 _ => iterNext acc3) acc2)
        acc)
    (some names)

/-! # Theorems -/

/-- C1: for every fixed-cardinality label type in the repository, encode and
decode are exact inverses over the declared value set and `cardinality()`
equals the number of representable values. For `StatusCode`:
`cardinality() = 900`; every status code `s` in `[100, 1000)` satisfies
`decode (encode s) = some s` (no panic); every code `c` in `[0, 900)`
round-trips as `encode <$> decode c = some c`. For the derived `Method` label
the same bijection holds over its 3 variants. -/
theorem C1_fixed_label_roundtrip (s c : Nat)
    (hs1 : 100 ≤ s) (hs2 : s < 1000) (hc : c < 900) :
    statusCode_cardinality = 900 ∧
    statusCode_decode (statusCode_encode s) = some s ∧
    (statusCode_decode c).map statusCode_encode = some c ∧
    Method.cardinality = 3 ∧
    (∀ m : Method, Method.decode (Method.encode m) = some m) ∧
    (∀ n : Nat, n < Method.cardinality → (Method.decode n).map Method.encode = some n) := by
  refine ⟨rfl, ?_, ?_, rfl, ?_, ?_⟩
  · have h1 : s - 100 ≤ 65535 := by omega
    have h2 : s - 100 + 100 = s := by omega
    simp [statusCode_decode, statusCode_encode, u16_try_from, httpStatus_from_u16,
      h1, h2, hs1, hs2]
  · have h1 : c ≤ 65535 := by omega
    have h2 : 100 ≤ c + 100 := by omega
    have h3 : c + 100 < 1000 := by omega
    have h4 : c + 100 - 100 = c := by omega
    simp [statusCode_decode, statusCode_encode, u16_try_from, httpStatus_from_u16,
      h1, h2, h3, h4]
  · intro m
    cases m <;> rfl
  · intro n hn
    simp only [Method.cardinality] at hn
    interval_cases n <;> rfl

/-- Witness for C1 at the concrete status code 404 and code 0. -/
theorem C1_fixed_label_roundtrip_witness :
    (100 ≤ 404 ∧ 404 < 1000 ∧ 0 < 900) ∧
    statusCode_decode (statusCode_encode 404) = some 404 ∧
    (statusCode_decode 0).map statusCode_encode = some 0 := by
  have h := C1_fixed_label_roundtrip 404 0 (by decide) (by decide) (by decide)
  exact ⟨by decide, h.2.1, h.2.2.1⟩

/-- C9: the `From<axum::http::Method>` impl is total and maps `GET` to `Get`,
`POST` to `Post`, and every other method name (standard or not) to `Other`,
so every HTTP method yields exactly one of the three closed variants. -/
theorem C9_method_from_total (m : String) (h1 : m ≠ "GET") (h2 : m ≠ "POST") :
    method_from "GET" = Method.get ∧
    method_from "POST" = Method.post ∧
    method_from m = Method.other := by
  refine ⟨by decide, by decide, ?_⟩
  simp [method_from, h1, h2]

/-- Witness for C9 at the nonstandard method name "PATCH". -/
theorem C9_method_from_total_witness :
    method_from "GET" = Method.get ∧
    method_from "POST" = Method.post ∧
    method_from "PATCH" = Method.other :=
  C9_method_from_total "PATCH" (by decide) (by decide)

/-! ## Counter storage lemmas -/

theorem denseGet_new (card i : Nat) : denseGet (denseNew card) i = 0 := by
  induction card generalizing i with
  | zero => simp [denseGet, denseNew]
  | succ n ih =>
    cases i with
    | zero => simp [denseGet, denseNew, List.replicate_succ]
    | succ m =>
      simpa only [denseNew, List.replicate_succ, denseGet, List.getD_cons_succ] using ih m

theorem denseInc_length (st : List Nat) (i : Nat) :
    (denseInc st i).length = st.length := by
  simp [denseInc]

theorem denseGet_inc_self (st : List Nat) (i : Nat) (h : i < st.length) :
    denseGet (denseInc st i) i = denseGet st i + 1 := by
  induction st generalizing i with
  | nil => simp at h
  | cons a t ih =>
    cases i with
    | zero => simp [denseGet, denseInc]
    | succ n =>
      have h' : n < t.length := by simpa using h
      simpa [denseGet, denseInc] using ih n h'

theorem denseGet_inc_ne (st : List Nat) (i j : Nat) (h : i ≠ j) :
    denseGet (denseInc st i) j = denseGet st j := by
  induction st generalizing i j with
  | nil => simp [denseGet, denseInc]
  | cons a t ih =>
    cases i with
    | zero =>
      cases j with
      | zero => exact absurd rfl h
      | succ m => simp [denseGet, denseInc]
    | succ n =>
      cases j with
      | zero => simp [denseGet, denseInc]
      | succ m =>
        have h' : n ≠ m := by omega
        simpa [denseGet, denseInc] using ih n m h'

theorem sparseGet_inc_self (st : List (Nat × Nat)) (i : Nat) :
    sparseGet (sparseInc st i) i = some ((sparseGet st i).getD 0 + 1) := by
  induction st with
  | nil => simp [sparseInc, sparseGet]
  | cons p t ih =>
    obtain ⟨k, v⟩ := p
    by_cases hk : k = i
    · subst hk
      simp [sparseInc, sparseGet]
    · simp [sparseInc, sparseGet, hk, ih]

theorem sparseGet_inc_ne (st : List (Nat × Nat)) (i j : Nat) (h : i ≠ j) :
    sparseGet (sparseInc st i) j = sparseGet st j := by
  induction st with
  | nil => simp [sparseInc, sparseGet, h]
  | cons p t ih =>
    obtain ⟨k, v⟩ := p
    by_cases hk : k = i
    · subst hk
      have hkj : k ≠ j := h
      simp [sparseInc, sparseGet, hkj]
    · simp [sparseInc, sparseGet, hk, ih]

theorem counters_applyOp_length (s : Engine) (op : Op) :
    (applyOp s op).counters.length = s.counters.length := by
  cases op <;> simp [applyOp, denseInc]

/-- Running any trace preserves the dense array's size. -/
theorem counters_runOps_length (s : Engine) (ops : List Op) :
    (runOps s ops).counters.length = s.counters.length := by
  induction ops generalizing s with
  | nil => rfl
  | cons op ops ih => rw [runOps, ih, counters_applyOp_length]

/-- The exact-count lemma for dense counters: running a trace adds exactly the
number of `incDense v` operations to slot `v`. -/
theorem runOps_dense_count (s : Engine) (ops : List Op) (v : Nat)
    (hv : v < s.counters.length) :
    denseGet (runOps s ops).counters v = denseGet s.counters v + incCountD ops v := by
  induction ops generalizing s with
  | nil => simp [runOps, incCountD]
  | cons op ops ih =>
    have hv' : v < (applyOp s op).counters.length := by
      rw [counters_applyOp_length]; exact hv
    rw [runOps, ih _ hv']
    cases op with
    | incDense i =>
      by_cases hiv : i = v
      · subst hiv
        have h1 := denseGet_inc_self s.counters i hv
        simp only [applyOp] at *
        rw [h1]
        simp [incCountD, List.filter_cons]
        omega
      · have h1 := denseGet_inc_ne s.counters i v hiv
        simp only [applyOp] at *
        rw [h1]
        simp [incCountD, List.filter_cons, hiv]
    | incSparse i => simp [applyOp, incCountD, List.filter_cons]
    | obs x => simp [applyOp, incCountD, List.filter_cons]
    | collectDense name => simp [applyOp, incCountD, List.filter_cons]
    | collectSparse name => simp [applyOp, incCountD, List.filter_cons]
    | collectHist name => simp [applyOp, incCountD, List.filter_cons]
    | finishOp => simp [applyOp, incCountD, List.filter_cons]

/-- The exact-count lemma for sparse counters. -/
theorem runOps_sparse_count (s : Engine) (ops : List Op) (v : Nat) :
    sparseGetD (runOps s ops).scounters v = sparseGetD s.scounters v + incCountS ops v := by
  induction ops generalizing s with
  | nil => simp [runOps, incCountS]
  | cons op ops ih =>
    rw [runOps, ih]
    cases op with
    | incSparse i =>
      by_cases hiv : i = v
      · subst hiv
        have h1 := sparseGet_inc_self s.scounters i
        simp only [applyOp, sparseGetD] at *
        rw [h1]
        simp [incCountS, List.filter_cons]
        omega
      · have h1 := sparseGet_inc_ne s.scounters i v hiv
        simp only [applyOp, sparseGetD] at *
        rw [h1]
        simp [incCountS, List.filter_cons, hiv]
    | incDense i => simp [applyOp, incCountS, List.filter_cons]
    | obs x => simp [applyOp, incCountS, List.filter_cons]
    | collectDense name => simp [applyOp, incCountS, List.filter_cons]
    | collectSparse name => simp [applyOp, incCountS, List.filter_cons]
    | collectHist name => simp [applyOp, incCountS, List.filter_cons]
    | finishOp => simp [applyOp, incCountS, List.filter_cons]

/-- C2: after any linearization of N concurrent `inc` calls on the label-group
value with composite index `v` (interleaved arbitrarily with operations on
other values and with collections), the accumulator for `v` holds exactly N —
no increment is lost, none is double-counted — for dense and sparse storage
alike. -/
theorem C2_inc_exact (card v N : Nat) (th : List ℚ) (ops : List Op)
    (hv : v < card) (hD : incCountD ops v = N) (hS : incCountS ops v = N) :
    denseGet (runOps (engineNew card th) ops).counters v = N ∧
    sparseGetD (runOps (engineNew card th) ops).scounters v = N := by
  constructor
  · have hv' : v < (engineNew card th).counters.length := by
      simpa [engineNew, denseNew] using hv
    rw [runOps_dense_count _ _ _ hv', hD]
    simp [engineNew, denseGet_new]
  · rw [runOps_sparse_count, hS]
    simp [engineNew, sparseNew, sparseGetD, sparseGet]

/-- Witness for C2: three interleaved increments on index 0 (with increments
on index 1 interleaved) leave accumulator 0 at exactly 3. -/
theorem C2_inc_exact_witness :
    (incCountD [Op.incDense 0, Op.incSparse 0, Op.incDense 1, Op.incDense 0,
      Op.incSparse 1, Op.incSparse 0, Op.incDense 0, Op.incSparse 0] 0 = 3 ∧
     incCountS [Op.incDense 0, Op.incSparse 0, Op.incDense 1, Op.incDense 0,
      Op.incSparse 1, Op.incSparse 0, Op.incDense 0, Op.incSparse 0] 0 = 3) ∧
    denseGet (runOps (engineNew 18 []) [Op.incDense 0, Op.incSparse 0, Op.incDense 1,
      Op.incDense 0, Op.incSparse 1, Op.incSparse 0, Op.incDense 0,
      Op.incSparse 0]).counters 0 = 3 ∧
    sparseGetD (runOps (engineNew 18 []) [Op.incDense 0, Op.incSparse 0, Op.incDense 1,
      Op.incDense 0, Op.incSparse 1, Op.incSparse 0, Op.incDense 0,
      Op.incSparse 0]).scounters 0 = 3 := by
  have h := C2_inc_exact 18 0 3 [] [Op.incDense 0, Op.incSparse 0, Op.incDense 1,
    Op.incDense 0, Op.incSparse 1, Op.incSparse 0, Op.incDense 0, Op.incSparse 0]
    (by decide) (by decide) (by decide)
  exact ⟨⟨by decide, by decide⟩, h.1, h.2⟩

/-! ## Monotonicity (C4) -/

theorem denseGet_inc_mono (st : List Nat) (i v : Nat) :
    denseGet st v ≤ denseGet (denseInc st i) v := by
  by_cases hiv : i = v
  · subst hiv
    by_cases hv : i < st.length
    · rw [denseGet_inc_self st i hv]
      omega
    · have hle : st.length ≤ i := by omega
      rw [denseInc, List.set_eq_of_length_le hle]
  · rw [denseGet_inc_ne st i v hiv]

theorem sparseGetD_inc_mono (st : List (Nat × Nat)) (i v : Nat) :
    sparseGetD st v ≤ sparseGetD (sparseInc st i) v := by
  by_cases hiv : i = v
  · subst hiv
    simp only [sparseGetD, sparseGet_inc_self st i, Option.getD_some]
    omega
  · simp only [sparseGetD, sparseGet_inc_ne st i v hiv]
    exact le_refl _

theorem applyOp_counter_mono (s : Engine) (op : Op) (v : Nat) :
    denseGet s.counters v ≤ denseGet (applyOp s op).counters v ∧
    sparseGetD s.scounters v ≤ sparseGetD (applyOp s op).scounters v := by
  cases op with
  | incDense i => exact ⟨denseGet_inc_mono s.counters i v, le_refl _⟩
  | incSparse i => exact ⟨le_refl _, sparseGetD_inc_mono s.scounters i v⟩
  | obs x => exact ⟨le_refl _, le_refl _⟩
  | collectDense name => exact ⟨le_refl _, le_refl _⟩
  | collectSparse name => exact ⟨le_refl _, le_refl _⟩
  | collectHist name => exact ⟨le_refl _, le_refl _⟩
  | finishOp => exact ⟨le_refl _, le_refl _⟩

theorem runOps_counter_mono (s : Engine) (ops : List Op) (v : Nat) :
    denseGet s.counters v ≤ denseGet (runOps s ops).counters v ∧
    sparseGetD s.scounters v ≤ sparseGetD (runOps s ops).scounters v := by
  induction ops generalizing s with
  | nil => exact ⟨le_refl _, le_refl _⟩
  | cons op ops ih =>
    have h1 := applyOp_counter_mono s op v
    have h2 := ih (applyOp s op)
    rw [runOps]
    exact ⟨le_trans h1.1 h2.1, le_trans h1.2 h2.2⟩

/-- C4: every counter accumulator starts at zero on creation (dense slots are
zero-filled, sparse entries read as zero while absent), and no operation of
the engine — `inc` on either backing, `observe` on a sibling histogram,
`collect_into`, `finish` — ever decreases any counter accumulator, along any
trace of operations. -/
theorem C4_counter_monotone (card : Nat) (th : List ℚ) (s : Engine)
    (ops : List Op) (v : Nat) :
    denseGet (engineNew card th).counters v = 0 ∧
    sparseGetD (engineNew card th).scounters v = 0 ∧
    denseGet s.counters v ≤ denseGet (runOps s ops).counters v ∧
    sparseGetD s.scounters v ≤ sparseGetD (runOps s ops).scounters v := by
  refine ⟨?_, ?_, (runOps_counter_mono s ops v).1, (runOps_counter_mono s ops v).2⟩
  · simp [engineNew, denseGet_new]
  · simp [engineNew, sparseNew, sparseGetD, sparseGet]

/-! ## Frame property (C6) -/

theorem errorIndex_injective (k1 k2 : ErrorKind) (r1 r2 : Nat)
    (hne : (k1, r1) ≠ (k2, r2)) :
    errorIndex k1 r1 ≠ errorIndex k2 r2 := by
  cases k1 <;> cases k2 <;>
    simp_all [errorIndex, ErrorKind.encode] <;> omega

theorem incCountD_replicate_ne (N i v : Nat) (h : i ≠ v) :
    incCountD (List.replicate N (Op.incDense i)) v = 0 := by
  induction N with
  | zero => simp [incCountD]
  | succ n ih =>
    rw [List.replicate_succ]
    simp only [incCountD, List.filter_cons] at *
    simp [h, ih]

theorem incCountS_replicate_ne (N i v : Nat) (h : i ≠ v) :
    incCountS (List.replicate N (Op.incSparse i)) v = 0 := by
  induction N with
  | zero => simp [incCountS]
  | succ n ih =>
    rw [List.replicate_succ]
    simp only [incCountS, List.filter_cons] at *
    simp [h, ih]

/-- Sparse increments on one index never create an entry for another index. -/
theorem sparseGet_runOps_replicate_ne (s : Engine) (N i j : Nat) (h : i ≠ j) :
    sparseGet (runOps s (List.replicate N (Op.incSparse i))).scounters j =
      sparseGet s.scounters j := by
  induction N generalizing s with
  | zero => rfl
  | succ n ih =>
    rw [List.replicate_succ, runOps, ih]
    simp [applyOp, sparseGet_inc_ne _ _ _ h]

/-- C6: incrementing one label-group value never changes any other. Over the
benchmark's 3 × 6 (kind, route) label space, any two distinct pairs map to
distinct composite indices, and N increments of the first leave the second's
accumulator at 0 when dense, and absent (never created, hence never emitted)
when sparse. -/
theorem C6_frame (k1 k2 : ErrorKind) (r1 r2 N : Nat)
    (_hr1 : r1 < 6) (hr2 : r2 < 6) (hne : (k1, r1) ≠ (k2, r2)) :
    errorIndex k1 r1 ≠ errorIndex k2 r2 ∧
    denseGet (runOps (engineNew 18 th6)
      (List.replicate N (Op.incDense (errorIndex k1 r1)))).counters
      (errorIndex k2 r2) = 0 ∧
    sparseGet (runOps (engineNew 18 th6)
      (List.replicate N (Op.incSparse (errorIndex k1 r1)))).scounters
      (errorIndex k2 r2) = none := by
  have hidx := errorIndex_injective k1 k2 r1 r2 hne
  refine ⟨hidx, ?_, ?_⟩
  · have hv : errorIndex k2 r2 < (engineNew 18 th6).counters.length := by
      cases k2 <;> simp [errorIndex, ErrorKind.encode, engineNew, denseNew] <;> omega
    rw [runOps_dense_count _ _ _ hv, incCountD_replicate_ne N _ _ hidx]
    simp [engineNew, denseGet_new]
  · rw [sparseGet_runOps_replicate_ne _ _ _ _ hidx]
    simp [engineNew, sparseNew, sparseGet]

/-- Witness for C6: five increments of (User, route 0) leave (Internal, route 0)
at zero / absent. -/
theorem C6_frame_witness :
    ((0 : Nat) < 6 ∧ (ErrorKind.user, (0 : Nat)) ≠ (ErrorKind.internal, (0 : Nat))) ∧
    errorIndex ErrorKind.user 0 ≠ errorIndex ErrorKind.internal 0 ∧
    denseGet (runOps (engineNew 18 th6)
      (List.replicate 5 (Op.incDense (errorIndex ErrorKind.user 0)))).counters
      (errorIndex ErrorKind.internal 0) = 0 ∧
    sparseGet (runOps (engineNew 18 th6)
      (List.replicate 5 (Op.incSparse (errorIndex ErrorKind.user 0)))).scounters
      (errorIndex ErrorKind.internal 0) = none := by
  have h := C6_frame ErrorKind.user ErrorKind.internal 0 0 5
    (by decide) (by decide) (by decide)
  exact ⟨⟨by decide, by decide⟩, h⟩

/-! ## Histogram lemmas and C3 -/

theorem bumpBuckets_length (x : ℚ) (th : List ℚ) (b : List Nat)
    (hlen : b.length = th.length) :
    (bumpBuckets x th b).length = th.length := by
  induction th generalizing b with
  | nil => simp [bumpBuckets]
  | cons t ts ih =>
    cases b with
    | nil => simp at hlen
    | cons a bs => simpa [bumpBuckets] using ih bs (by simpa using hlen)

theorem bumpBuckets_getD (x : ℚ) (th : List ℚ) (b : List Nat) (i : Nat)
    (hlen : b.length = th.length) (hi : i < th.length) :
    (bumpBuckets x th b).getD i 0 =
      b.getD i 0 + (if x ≤ th.getD i 0 then 1 else 0) := by
  induction th generalizing b i with
  | nil => simp at hi
  | cons t ts ih =>
    cases b with
    | nil => simp at hlen
    | cons a bs =>
      cases i with
      | zero =>
        by_cases hxt : x ≤ t <;> simp [bumpBuckets, hxt]
      | succ n =>
        have hlen' : bs.length = ts.length := by simpa using hlen
        have hi' : n < ts.length := by simpa using hi
        simpa [bumpBuckets] using ih bs n hlen' hi'

theorem th6_eq : th6 = [1 / 10, 1 / 5, 2 / 5, 4 / 5, 8 / 5, 16 / 5] := by
  simp only [th6, exponential_buckets]
  norm_num [List.range_succ]

theorem observe_example :
    observe th6 (histNew 6) (1 / 2) = ⟨[0, 0, 0, 1, 1, 1], 1 / 2, 1⟩ := by
  rw [th6_eq]
  norm_num [observe, histNew, bumpBuckets, List.replicate]

/-- C3 counterexample: with thresholds `exponential_buckets(0.1, 2.0)` =
[0.1, 0.2, 0.4, 0.8, 1.6, 3.2], a single `observe` of 0.5 leaves the
le="0.4" bucket at 0 (0.4 < 0.5), so the bucket counts are [0, 0, 0, 1, 1, 1]
and not the claimed [0, 0, 1, 1, 1, 1]: the claim's enumeration contradicts
its own rule that exactly the buckets with threshold ≥ 0.5 are incremented. -/
theorem C3_counterexample :
    th6 = [1 / 10, 1 / 5, 2 / 5, 4 / 5, 8 / 5, 16 / 5] ∧
    (observe th6 (histNew 6) (1 / 2)).buckets = [0, 0, 0, 1, 1, 1] ∧
    (observe th6 (histNew 6) (1 / 2)).buckets ≠ [0, 0, 1, 1, 1, 1] := by
  refine ⟨th6_eq, ?_, ?_⟩
  · rw [observe_example]
  · rw [observe_example]
    decide

/-- C3 (amended): for thresholds `exponential_buckets(0.1, 2.0)` =
[0.1, 0.2, 0.4, 0.8, 1.6, 3.2], a single observe of 0.5 increments exactly
the buckets with threshold ≥ 0.5 — counts become 0 for le="0.1", le="0.2" and
le="0.4", and 1 for le="0.8", le="1.6", le="3.2" — and sets `_sum` to 0.5 and
`_count` to 1; in general each observe increments exactly the buckets with
threshold ≥ x (bucket i grows by 1 iff x ≤ threshold i, and no bucket beyond
the threshold list exists), increments the observation count by 1, and adds x
to the running sum. -/
theorem C3_histogram_observe (th : List ℚ) (h : Hist) (x : ℚ) (i : Nat)
    (hlen : h.buckets.length = th.length) (hi : i < th.length) :
    observe th6 (histNew 6) (1 / 2) = ⟨[0, 0, 0, 1, 1, 1], 1 / 2, 1⟩ ∧
    (observe th h x).count = h.count + 1 ∧
    (observe th h x).sum = h.sum + x ∧
    (observe th h x).buckets.getD i 0 =
      h.buckets.getD i 0 + (if x ≤ th.getD i 0 then 1 else 0) ∧
    (observe th h x).buckets.length = th.length := by
  refine ⟨observe_example, rfl, rfl, ?_, ?_⟩
  · exact bumpBuckets_getD x th h.buckets i hlen hi
  · exact bumpBuckets_length x th h.buckets hlen

/-- Witness for C3 (amended) at the example thresholds, bucket index 3. -/
theorem C3_histogram_observe_witness :
    ((histNew 6).buckets.length = th6.length ∧ (3 : Nat) < th6.length) ∧
    observe th6 (histNew 6) (1 / 2) = ⟨[0, 0, 0, 1, 1, 1], 1 / 2, 1⟩ ∧
    (observe th6 (histNew 6) (1 / 2)).buckets.getD 3 0 =
      (histNew 6).buckets.getD 3 0 + (if (1 : ℚ) / 2 ≤ th6.getD 3 0 then 1 else 0) := by
  have h := C3_histogram_observe th6 (histNew 6) (1 / 2) 3 (by decide) (by decide)
  exact ⟨⟨by decide, by decide⟩, h.1, h.2.2.2.1⟩

/-! ## Export determinism (C5) -/

/-- C5: export is deterministic for a fixed state. After flushing the encoder,
two consecutive collect-all-metrics + `finish` rounds with no intervening
`inc`/`observe` yield byte-identical texts — the same `t` is returned by both
`finish` calls — covering dense counters, sparse counters and the histogram. -/
theorem C5_export_deterministic (s : Engine) (nameD nameS nameH : String) :
    ∃ t : String,
      (runOps s
        [Op.finishOp,
         Op.collectDense nameD, Op.collectSparse nameS, Op.collectHist nameH,
         Op.finishOp,
         Op.collectDense nameD, Op.collectSparse nameS, Op.collectHist nameH,
         Op.finishOp]).outs = s.outs ++ [s.buf, t, t] := by
  refine ⟨"" ++ renderDense nameD s.counters ++ renderSparse nameS s.scounters ++
    renderHist nameH s.thresholds s.hist, ?_⟩
  simp [runOps, applyOp]

/-! ## Middleware trace (C7) -/

/-- C7: on every request through the middleware, `http_requests.inc` is the
unique metric call before the downstream handler runs, and after the handler
completes `http_request_duration.observe` and then `http_responses.inc` each
happen exactly once — all with the matched route path and the converted method
of that request — and the downstream response is returned unchanged. -/
theorem C7_middleware_order (req : HttpRequest) (resp : HttpResponse) (d : ℚ) :
    (middleware req resp d).1.takeWhile (fun e => !(isHandlerRun e)) =
      [MetricEvent.requestsInc req.matchedPath (method_from req.method)] ∧
    (middleware req resp d).1.dropWhile (fun e => !(isHandlerRun e)) =
      [MetricEvent.handlerRun,
       MetricEvent.durationObserve req.matchedPath (method_from req.method) d,
       MetricEvent.responsesInc req.matchedPath (method_from req.method) resp.status] ∧
    (middleware req resp d).2 = resp := by
  refine ⟨?_, ?_, rfl⟩ <;>
    simp [middleware, isHandlerRun, List.takeWhile, List.dropWhile]

/-! ## Scrape handler (C8) -/

/-- C8 counterexample: the scrape handler builds its response with
`Response::new(encoder.finish().into())`, which carries `http`'s default
(empty) header map — at the concrete fresh-engine state the returned response
has no headers at all, hence no content-type header, contradicting the claim
that an appropriate content type is set on the HTTP response. -/
theorem C8_counterexample :
    (handler (engineNew 18 th6)).2.headers = [] := rfl

/-- C8 (amended): the scrape endpoint handler returns exactly the exposition
text produced by the `collect_into` calls and `finish` as the response body
(`finish` hands back precisely the body and resets the buffer), but it sets no
headers at all on the response — in particular no content-type header — since
`Response::new` leaves the default empty header map (and status 200). -/
theorem C8_handler_body (s : Engine) :
    (handler s).2.body = s.buf ++ renderSparse "http_requests_total" s.scounters
      ++ renderSparse "http_responses_total" s.scounters
      ++ renderHist "http_request_duration_seconds" s.thresholds s.hist ∧
    (handler s).1.outs = s.outs ++ [(handler s).2.body] ∧
    (handler s).1.buf = "" ∧
    (handler s).2.headers = [] ∧
    (handler s).2.status = 200 := by
  refine ⟨?_, ?_, rfl, rfl, rfl⟩ <;>
    simp [handler, runOps, applyOp, http_response_new]

/-! ## The high-cardinality benchmark's name supply (C10) -/

theorem foldl_const_iterate {α β : Type} (f : β → β) (l : List α) (b : β) :
    l.foldl (fun acc _ => f acc) b = f^[l.length] b := by
  induction l generalizing b with
  | nil => rfl
  | cons a t ih =>
    rw [List.foldl_cons, ih, List.length_cons, Function.iterate_succ_apply]

theorem iterNext_iterate (n : Nat) (l : List String) (h : n ≤ l.length) :
    iterNext^[n] (some l) = some (l.drop n) := by
  induction n generalizing l with
  | zero => simp
  | succ m ih =>
    cases l with
    | nil => simp at h
    | cons a t =>
      rw [Function.iterate_succ_apply]
      have ht : m ≤ t.length := by simpa using h
      simp [iterNext, ih t ht]

theorem benchLoop_iterate (names : List String) :
    benchLoop names = iterNext^[18000] (some names) := by
  rw [benchLoop]
  simp only [foldl_const_iterate]
  rw [show routesList.length = 6 from rfl, show errorsList.length = 3 from rfl,
    show (List.range LOOPS).length = 1000 by simp [LOOPS]]
  rw [← Function.iterate_mul, ← Function.iterate_mul]

/-- C10: `get_names` returns exactly `LOOPS * |errors()| * |routes()| =
1000 * 3 * 6 = 18000` names, the benchmark body's triple loop calls
`names.next()` exactly that many times, so every `names.next().unwrap()`
succeeds (the loop ends with the iterator exactly exhausted, never panicking). -/
theorem C10_names_no_panic (generate : Nat → String) :
    (get_names generate).length = 18000 ∧
    18000 = LOOPS * (errorsList.length * routesList.length) ∧
    benchLoop (get_names generate) = some [] := by
  have hlen : (get_names generate).length = 18000 := by
    simp [get_names, LOOPS, errorsList, routesList]
  refine ⟨hlen, by simp [LOOPS, errorsList, routesList], ?_⟩
  rw [benchLoop_iterate, iterNext_iterate 18000 _ (by rw [hlen]),
    ← hlen, List.drop_length]

end BetterMetrics
